import Mathlib

/-!
Verification of the Don't Fall per-room game simulation engine
(`backend/game.ts`, `backend/leaderboard.ts`, `backend/config.ts`).

The TypeScript source is shallowly embedded: numbers are modelled by `ℚ`
(world coordinates, velocities) and `Int` (millisecond timestamps), maps by
`String → Option _` functions or association lists, and `Math.random`-driven
choices by explicit oracle parameters.  `Math.hypot`/`Math.sqrt` is abstracted
as a function parameter `s : ℚ → ℚ`; theorems that depend on the numeric value
of a square root take pointwise correctness hypotheses about `s` at the
arguments actually encountered (ideal exact arithmetic in place of IEEE
floats).
-/

namespace DontFall

/-! ### Constants (`backend/config.ts`) -/

def MAP_WIDTH : Nat := 15
def MAP_HEIGHT : Nat := 15
def TILE_SIZE : ℚ := 1
def TILE_FALL_DELAY_MS : Int := 3000
def DASH_IMPULSE : ℚ := 10
def DASH_DURATION_MS : Int := 180
def DASH_COOLDOWN_MS : Int := 2000
def PLAYER_MOVE_SPEED : ℚ := 5
def PLAYER_ACCEL : ℚ := 30
def PLAYER_FRICTION : ℚ := 10
def PLAYER_RADIUS : ℚ := 35 / 100
def DASH_PUSHBACK_IMPULSE : ℚ := 6
def COUNTDOWN_SECONDS : Int := 3

/-- Modelled from the spec: `FALL_GRACE_MS` is imported by `game.ts` from
`config.ts`, but its definition is absent from the provided sources.  The
spec's testable property ("any alive player occupying that tile at that moment
(without an active dash) is eliminated within the same tick") and the repo's
own test (`game_test.ts`, "Tile falls triggers death if player stands on it",
which ticks once past `fallAtMs` and immediately asserts the player is dead)
both force `(now - start) >= FALL_GRACE_MS` to hold on the very tick the tile
falls, where `start = now`; hence the grace window is `0` ms. -/
def FALL_GRACE_MS : Int := 0

/-! ### Vector and grid helpers (`game.ts` lines 41-97) -/

structure Vec2 where
  x : ℚ
  y : ℚ
deriving DecidableEq, Repr

/-- Squared Euclidean norm; `Math.hypot v.x v.y` is `s (normSq v)` for a
square-root function `s`. -/
def normSq (v : Vec2) : ℚ := v.x * v.x + v.y * v.y

/-- Source `length(v) = Math.hypot(v.x, v.y)`, with the square root abstracted
as `s`. -/
def vlength (s : ℚ → ℚ) (v : Vec2) : ℚ := s (normSq v)

/-- Source `normalize`: returns the zero vector when the magnitude is at most
`1e-6`, otherwise divides by the magnitude. -/
def normalize (s : ℚ → ℚ) (v : Vec2) : Vec2 :=
  let m := vlength s v
  if m ≤ 1 / 1000000 then ⟨0, 0⟩ else ⟨v.x / m, v.y / m⟩

def vadd (a b : Vec2) : Vec2 := ⟨a.x + b.x, a.y + b.y⟩
def vsub (a b : Vec2) : Vec2 := ⟨a.x - b.x, a.y - b.y⟩
def vmul (a : Vec2) (k : ℚ) : Vec2 := ⟨a.x * k, a.y * k⟩

/-- Source `clamp(v, lo, hi) = Math.max(lo, Math.min(hi, v))`. -/
def clamp (v lo hi : ℚ) : ℚ := max lo (min hi v)

def HALF_W_TILES : ℚ := (MAP_WIDTH : ℚ) / 2
def HALF_H_TILES : ℚ := (MAP_HEIGHT : ℚ) / 2

def tileIndex (tx ty : Nat) : Nat := ty * MAP_WIDTH + tx

/-- Source `posToTile`: floor the world position into tile coordinates and
reject out-of-grid positions. -/
def posToTile (pos : Vec2) : Option (Nat × Nat) :=
  let fx : ℚ := pos.x / TILE_SIZE + HALF_W_TILES
  let fy : ℚ := pos.y / TILE_SIZE + HALF_H_TILES
  let tx : Int := ⌊fx⌋
  let ty : Int := ⌊fy⌋
  if tx < 0 ∨ tx ≥ (MAP_WIDTH : Int) ∨ ty < 0 ∨ ty ≥ (MAP_HEIGHT : Int) then none
  else some (tx.toNat, ty.toNat)

def tileCenter (tx ty : Nat) : Vec2 :=
  ⟨((tx : ℚ) + 1 / 2 - HALF_W_TILES) * TILE_SIZE,
   ((ty : ℚ) + 1 / 2 - HALF_H_TILES) * TILE_SIZE⟩

/-! ### Tiles (`types.ts`) -/

inductive TileState where
  | solid
  | shaking
  | fallen
deriving DecidableEq, Repr

structure Tile where
  idx : Nat
  state : TileState
  shakeStartMs : Option Int := none
  fallAtMs : Option Int := none
deriving DecidableEq, Repr

/-- Source `createFreshTiles`: all tiles solid, indices row-major. -/
def createFreshTiles : List Tile :=
  (List.range (MAP_WIDTH * MAP_HEIGHT)).map (fun i => { idx := i, state := .solid })

/-! ### Players and input state (`types.ts`, `game.ts` lines 143-150) -/

structure Player where
  id : String
  name : String
  pos : Vec2
  vel : Vec2
  alive : Bool
  dashCooldownUntil : Int
  dashUntil : Int
  lastInputSeq : Nat
  ready : Bool
deriving DecidableEq, Repr

structure InputState where
  move : Vec2
  dashRequest : Bool
  lastSeq : Nat
  lastMoveDir : Vec2
deriving DecidableEq, Repr

inductive GameEvent where
  | tile_shake (idx : Nat)
  | tile_fall (idx : Nat)
  | death (playerId : String)
deriving DecidableEq, Repr

/-- Initial input state created by `addPlayer` (`game.ts` line 200):
`{ move: {x:0,y:0}, dashRequest: false, lastSeq: 0, lastMoveDir: {x:0,y:1} }`. -/
def addPlayerInput : InputState :=
  { move := ⟨0, 0⟩, dashRequest := false, lastSeq := 0, lastMoveDir := ⟨0, 1⟩ }

/-- Per-player input reset performed by `startRound` (`game.ts` lines 322-325). -/
def startRoundInputReset (inp : InputState) : InputState :=
  { inp with move := ⟨0, 0⟩, dashRequest := false, lastMoveDir := ⟨0, 1⟩ }

/-! ### Input ingestion (`GameRoom.handleInput`, `game.ts` lines 229-260)

The room method looks the player and its input record up by id; the body below
is its effect on that pair (the claims under consideration are per-player). -/

def handleInput (s : ℚ → ℚ) (p : Player) (input : InputState)
    (seq : Nat) (move : Vec2) (dash : Bool) : Player × InputState :=
  if seq < input.lastSeq then (p, input)
  else
    let input1 := { input with
      lastSeq := seq,
      move := ⟨clamp move.x (-1) 1, clamp move.y (-1) 1⟩ }
    let norm := normalize s input1.move
    let input2 := if 0 < vlength s norm then { input1 with lastMoveDir := norm } else input1
    let input3 := if dash then { input2 with dashRequest := true } else input2
    ({ p with lastInputSeq := seq }, input3)

/-! ### Dash trigger (`GameRoom.stepSimulation`, `game.ts` lines 376-384)

The dash-start block at the head of the per-player simulation step: consume a
pending dash request once the cooldown has expired, dash along the last
nonzero movement direction. -/

def handleDashStart (s : ℚ → ℚ) (now : Int) (p : Player) (input : InputState) :
    Player × InputState :=
  if input.dashRequest = true ∧ p.dashCooldownUntil ≤ now then
    let input1 := { input with dashRequest := false }
    let dir := normalize s input.lastMoveDir
    if 0 < vlength s dir then
      ({ p with
          dashUntil := now + DASH_DURATION_MS,
          dashCooldownUntil := now + DASH_COOLDOWN_MS,
          vel := vadd p.vel (vmul dir DASH_IMPULSE) }, input1)
    else (p, input1)
  else (p, input)

/-! ### Spawn rings (`game.ts` lines 88-141)

The generators are translated as list builders; ascending `for` loops become
`List.range'`, descending ones its reverse. -/

/-- Source `perimeterTiles`: outer boundary, clockwise from the top-left. -/
def perimeterTiles (width height : Nat) : List (Nat × Nat) :=
  ((List.range width).map (fun x => (x, 0))) ++
  ((List.range' 1 (height - 2)).map (fun y => (width - 1, y))) ++
  (if height > 1 then ((List.range width).reverse.map (fun x => (x, height - 1))) else []) ++
  (if width > 1 then ((List.range' 1 (height - 2)).reverse.map (fun y => (0, y))) else [])

/-- Source `innerPerimeterTiles`: the ring one cell inside the boundary;
empty when the grid has no interior ring. -/
def innerPerimeterTiles (width height : Nat) : List (Nat × Nat) :=
  if width < 3 ∨ height < 3 then []
  else
    ((List.range' 1 (width - 2)).map (fun x => (x, 1))) ++
    ((List.range' 2 (height - 4)).map (fun y => (width - 2, y))) ++
    (if height - 2 > 1 then ((List.range' 1 (width - 2)).reverse.map (fun x => (x, height - 2))) else []) ++
    (if width - 2 > 1 then ((List.range' 2 (height - 4)).reverse.map (fun y => (1, y))) else [])

/-- Swap two positions of a list (identity when either index is out of range;
in the source both indices are always in range). -/
def swapL {α : Type} (l : List α) (i j : Nat) : List α :=
  match l.get? i, l.get? j with
  | some a, some b => (l.set i b).set j a
  | _, _ => l

/-- Fisher-Yates shuffle loop of `randomInnerPerimeterPositions`
(`game.ts` lines 136-139): for `i` from `len-1` down to `1`, swap position `i`
with a random position `j ≤ i`.  The random draws are supplied by the oracle
`f`; the source's `(Math.random() * (i + 1)) | 0` always lies in `[0, i]`,
which the model realises as `f i % (i + 1)`. -/
def shuffleFrom {α : Type} (f : Nat → Nat) : Nat → List α → List α
  | 0, l => l
  | i + 1, l => shuffleFrom f i (swapL l (i + 1) (f (i + 1) % (i + 2)))

def shuffleList {α : Type} (f : Nat → Nat) (l : List α) : List α :=
  shuffleFrom f (l.length - 1) l

/-- Source `randomInnerPerimeterPositions`: prefer the inner ring, fall back
to the outer perimeter, shuffle, then `slice(0, max(0, min(n, ring.length)))`
(the outer `max 0` is vacuous since `n`, a player count, is a `Nat`). -/
def randomInnerPerimeterPositions (f : Nat → Nat) (n : Nat) : List (Nat × Nat) :=
  let ring0 := innerPerimeterTiles MAP_WIDTH MAP_HEIGHT
  let ring := if ring0.isEmpty then perimeterTiles MAP_WIDTH MAP_HEIGHT else ring0
  (shuffleList f ring).take (min n ring.length)

/-- Spawn assignment loop of `startRound` (`game.ts` lines 306-329): pair the
i-th player id with `spawns[i]`.  When the spawn list is shorter than the
player list the source reads `spawns[i]` past the end and crashes on
`s.tx`; the model returns `none` for that case. -/
def startRoundSpawns (f : Nat → Nat) (ids : List String) :
    Option (List (String × (Nat × Nat))) :=
  let spawns := randomInnerPerimeterPositions f ids.length
  if spawns.length < ids.length then none else some (ids.zip spawns)

/-! ### Tile hazard lifecycle (`game.ts` lines 408-420, 455-486) -/

/-- The shake transition applied to a solid tile (`game.ts` lines 413-417 and
480-483): mark shaking, stamp the shake start, schedule the fall. -/
def shakeTile (now : Int) (t : Tile) : Tile :=
  { t with state := .shaking, shakeStartMs := some now,
           fallAtMs := some (now + TILE_FALL_DELAY_MS) }

/-- Condition of `processTileFalls` (`game.ts` line 458):
`t.state === "shaking" && (t.fallAtMs ?? Infinity) <= now`. -/
def shouldFall (now : Int) (t : Tile) : Bool :=
  decide (t.state = .shaking) &&
    (match t.fallAtMs with | some f => decide (f ≤ now) | none => false)

def fallTile (now : Int) (t : Tile) : Tile :=
  if shouldFall now t then { t with state := .fallen } else t

/-- Source `processTileFalls` (`game.ts` lines 455-466): every due shaking
tile becomes fallen and emits a `tile_fall` event.  (The snapshot-delta index
set, which records the same indices, is not modelled.) -/
def processTileFalls (now : Int) (tiles : List Tile) : List Tile × List GameEvent :=
  (tiles.map (fallTile now),
   tiles.enum.filterMap (fun it =>
     if shouldFall now it.2 then some (GameEvent.tile_fall it.1) else none))

/-- Source `maybeRandomShake` (`game.ts` lines 469-486): once the timer has
elapsed, pick a uniformly random still-solid tile (random draw supplied by the
oracle `r`) and put it through the shake transition.  Returns the updated
tiles, the re-armed timer and the emitted events. -/
def maybeRandomShake (r : Nat) (now : Int) (nextRandomShakeAt : Int)
    (tiles : List Tile) : List Tile × Int × List GameEvent :=
  if now < nextRandomShakeAt then (tiles, nextRandomShakeAt, [])
  else
    let solids := (tiles.enum.filter (fun it => it.2.state = .solid)).map (fun it => it.1)
    if solids.isEmpty then (tiles, now + 1000, [])
    else
      let idx := solids.getD (r % solids.length) 0
      match tiles.get? idx with
      | some t => (tiles.set idx (shakeTile now t), now + 1000, [GameEvent.tile_shake idx])
      | none => (tiles, now + 1000, [])

/-- Tile-stepping part of `stepSimulation` (`game.ts` lines 408-420), for one
player position: stepping onto a solid tile triggers its shake. -/
def stepOnTile (now : Int) (acc : List Tile × List GameEvent) (pos : Vec2) :
    List Tile × List GameEvent :=
  match posToTile pos with
  | none => acc
  | some tt =>
    let idx := tileIndex tt.1 tt.2
    match acc.1.get? idx with
    | none => acc
    | some t =>
      if t.state = .solid then
        (acc.1.set idx (shakeTile now t), acc.2 ++ [GameEvent.tile_shake idx])
      else acc

/-- The tile effect of the per-player movement loop of `stepSimulation`: each
alive player's (post-integration) position may shake the tile it stands on. -/
def stepPlayerTiles (now : Int) (positions : List Vec2) (tiles : List Tile) :
    List Tile × List GameEvent :=
  positions.foldl (stepOnTile now) (tiles, [])

/-! ### Eliminations (`GameRoom.checkEliminations`, `game.ts` lines 488-514)

The private maps `deathAt` and `unsupportedSince` are modelled as
`String → Option Int` functions; `markDead` (lines 524-528) is inlined as in
the source: set `alive := false`, record the death time, emit a death event. -/

def mapInsert (m : String → Option Int) (k : String) (v : Int) : String → Option Int :=
  fun k' => if k' = k then some v else m k'

def mapErase (m : String → Option Int) (k : String) : String → Option Int :=
  fun k' => if k' = k then none else m k'

structure ElimResult where
  players : List Player
  unsupportedSince : String → Option Int
  deathAt : String → Option Int
  events : List GameEvent

/-- One iteration of the `checkEliminations` loop for a single player. -/
def elimOne (now : Int) (tiles : List Tile) (p : Player)
    (us da : String → Option Int) (evs : List GameEvent) :
    Player × (String → Option Int) × (String → Option Int) × List GameEvent :=
  if p.alive = false then (p, us, da, evs)
  else
    match posToTile p.pos with
    | none =>
      ({ p with alive := false }, mapErase us p.id, mapInsert da p.id now,
       evs ++ [GameEvent.death p.id])
    | some tt =>
      match tiles.get? (tileIndex tt.1 tt.2) with
      | none => (p, us, da, evs)
      | some t =>
        if t.state = .fallen then
          let start := (us p.id).getD now
          let dashing := now < p.dashUntil
          if ¬dashing ∧ now - start ≥ FALL_GRACE_MS then
            ({ p with alive := false }, mapErase (mapInsert us p.id start) p.id,
             mapInsert da p.id now, evs ++ [GameEvent.death p.id])
          else (p, mapInsert us p.id start, da, evs)
        else (p, mapErase us p.id, da, evs)

/-- Source `checkEliminations`: fold `elimOne` over the player list, threading
the unsupported-since and death-time maps and the event buffer. -/
def checkEliminations (now : Int) (tiles : List Tile) :
    List Player → (String → Option Int) → (String → Option Int) →
    List GameEvent → ElimResult
  | [], us, da, evs => ⟨[], us, da, evs⟩
  | p :: rest, us, da, evs =>
    let r := elimOne now tiles p us da evs
    let rec' := checkEliminations now tiles rest r.2.1 r.2.2.1 r.2.2.2
    ⟨r.1 :: rec'.players, rec'.unsupportedSince, rec'.deathAt, rec'.events⟩

/-! ### Round results (`GameRoom.endRound` lines 338-363 and
`GameRoom.computeRoundResults` lines 567-579; both compute the identical
placement list and winner). -/

structure Placement where
  id : String
  place : Nat
deriving DecidableEq, Repr

/-- Comparator of `dead.sort((a, b) => deathAt.get(b.id)! - deathAt.get(a.id)!)`:
death time descending.  The source's `Map.get(...)!` asserts presence; absent
entries are modelled by the default `0`. -/
def deadRel (deathAt : String → Option Int) (a b : Player) : Prop :=
  ((deathAt b.id).getD 0) ≤ ((deathAt a.id).getD 0)

instance (deathAt : String → Option Int) : DecidableRel (deadRel deathAt) :=
  fun a b => by unfold deadRel; infer_instance

/-- Placement computation shared by `endRound` and `computeRoundResults`:
alive players first (original order), then the dead by death time descending,
with 1-based consecutive places.  JavaScript's stable `Array.sort` is
modelled by the stable `List.insertionSort`. -/
def computePlacements (players : List Player) (deathAt : String → Option Int) :
    List Placement :=
  let alive := players.filter (fun p => p.alive)
  let dead := players.filter (fun p => !p.alive)
  let deadSorted := dead.insertionSort (deadRel deathAt)
  let ordered := alive ++ deadSorted
  ordered.enum.map (fun ip => ⟨ip.2.id, ip.1 + 1⟩)

/-- Source `winnerId`: `placements.length > 0 ? placements[0].id : undefined`. -/
def winnerId (players : List Player) (deathAt : String → Option Int) : Option String :=
  (computePlacements players deathAt).head?.map (fun pl => pl.id)

/-! ### Leaderboard (`backend/leaderboard.ts`) -/

structure LeaderboardStats where
  wins : Nat
  games : Nat
  totalPlace : Nat
deriving DecidableEq, Repr

structure LeaderboardEntry where
  id : String
  name : String
  wins : Nat
  games : Nat
  totalPlace : Nat
  avgPlace : ℚ
deriving DecidableEq, Repr

/-- Sort order of `Leaderboard.snapshot` (`leaderboard.ts` lines 50-55): the
JS comparator returns `b.wins - a.wins`, else `a.avgPlace - b.avgPlace`, else
`b.games - a.games`; `lbLe a b` holds exactly when that comparator is `≤ 0`,
i.e. wins descending, then average placement ascending, then games played
descending. -/
def lbRel (a b : LeaderboardEntry) : Prop :=
  if b.wins ≠ a.wins then b.wins < a.wins
  else if a.avgPlace ≠ b.avgPlace then a.avgPlace < b.avgPlace
  else b.games ≤ a.games

instance : DecidableRel lbRel :=
  fun a b => by unfold lbRel; infer_instance

/-- Source `Leaderboard.snapshot` (`leaderboard.ts` lines 37-59): build one
entry per stats record whose player is still in the room (skipping
disconnected players), deriving `avgPlace = totalPlace / games` (0 when no
games), then sort by `lbRel` (the stable JS sort modelled by the stable
insertion sort).  The stats map is modelled as an association list in
insertion order. -/
def lbSnapshot (stats : List (String × LeaderboardStats)) (players : List Player) :
    List LeaderboardEntry :=
  let entries := stats.filterMap (fun e =>
    match players.find? (fun p => p.id = e.1) with
    | none => none
    | some p => some
        { id := e.1, name := p.name, wins := e.2.wins, games := e.2.games,
          totalPlace := e.2.totalPlace,
          avgPlace := if e.2.games > 0 then (e.2.totalPlace : ℚ) / (e.2.games : ℚ) else 0 })
  entries.insertionSort lbRel

/-! ### Room state and lobby reset (`game.ts` lines 154-180, 592-608) -/

inductive RoundState where
  | lobby
  | countdown
  | inRound
  | roundOver
deriving DecidableEq, Repr

structure RoomState where
  players : List Player
  tiles : List Tile
  roundState : RoundState
  countdownEndAt : Option Int
  deathAt : String → Option Int
  unsupportedSince : String → Option Int
  lastSpawns : List (String × Nat × Nat)
  nextRandomShakeAt : Int
  events : List GameEvent
  tick : Nat

/-- Source `resetToLobby` (`game.ts` lines 592-608): for each player keep the
ready state (source comment: "keep ready state across rounds"), clear `alive`
and velocity; reset tiles, clear the per-round buffers and maps, and re-enter
the lobby state. -/
def resetToLobby (room : RoomState) : RoomState :=
  { room with
    players := room.players.map (fun p => { p with alive := false, vel := ⟨0, 0⟩ }),
    tiles := createFreshTiles,
    events := [],
    deathAt := fun _ => none,
    unsupportedSince := fun _ => none,
    lastSpawns := [],
    nextRandomShakeAt := 0,
    countdownEndAt := none,
    roundState := .lobby }

/-! ### Shared sample data for concrete instances -/

def pA : Player := ⟨"A", "A", ⟨0, 0⟩, ⟨0, 0⟩, true, 0, 0, 0, false⟩
def pB : Player := ⟨"B", "B", ⟨0, 0⟩, ⟨0, 0⟩, false, 0, 0, 0, false⟩
def pC : Player := ⟨"C", "C", ⟨0, 0⟩, ⟨0, 0⟩, false, 0, 0, 0, false⟩

/-- Death times: B died at t=100, C died at t=200. -/
def sampleDeathAt : String → Option Int :=
  fun id => if id = "B" then some 100 else if id = "C" then some 200 else none

/-! ### Order-theoretic facts about the sort relations -/

instance (deathAt : String → Option Int) : IsTotal Player (deadRel deathAt) :=
  ⟨fun _ _ => Int.le_total _ _⟩

instance (deathAt : String → Option Int) : IsTrans Player (deadRel deathAt) :=
  ⟨fun _ _ _ hab hbc => le_trans hbc hab⟩

instance (deathAt : String → Option Int) : IsRefl Player (deadRel deathAt) :=
  ⟨fun _ => le_refl _⟩

/-! ### Claim C3 — resetToLobby -/

/-- C3 (counterexample): after `resetToLobby` on a room with one ready player,
the round state is `lobby` but the player's ready flag is still `true` — the
claim that every ready flag is reset to `false` fails.  (The source comment
says "keep ready state across rounds", and the server relies on it to
auto-start the next round.) -/
theorem c3_counterexample :
    (resetToLobby ⟨[⟨"a", "A", ⟨0, 0⟩, ⟨0, 0⟩, false, 0, 0, 0, true⟩],
        createFreshTiles, .roundOver, none, fun _ => none, fun _ => none,
        [], 0, [], 0⟩).roundState = .lobby ∧
    ¬ (∀ p ∈ (resetToLobby ⟨[⟨"a", "A", ⟨0, 0⟩, ⟨0, 0⟩, false, 0, 0, 0, true⟩],
        createFreshTiles, .roundOver, none, fun _ => none, fun _ => none,
        [], 0, [], 0⟩).players, p.ready = false) := by
  constructor
  · rfl
  · intro h
    have := h ⟨"a", "A", ⟨0, 0⟩, ⟨0, 0⟩, false, 0, 0, 0, true⟩ (by simp [resetToLobby])
    simp at this

/-- C3 (amended): after `resetToLobby` returns, the room's round state is
`lobby`, every player is no longer alive with zeroed velocity, and every
player's ready flag is preserved (not reset): ready flags are deliberately
kept across rounds. -/
theorem c3_resetToLobby (room : RoomState) :
    (resetToLobby room).roundState = .lobby ∧
    (resetToLobby room).players.map (fun p => (p.id, p.ready)) =
      room.players.map (fun p => (p.id, p.ready)) ∧
    ∀ p ∈ (resetToLobby room).players, p.alive = false ∧ p.vel = ⟨0, 0⟩ := by
  refine ⟨rfl, by simp [resetToLobby], ?_⟩
  intro p hp
  simp only [resetToLobby, List.mem_map] at hp
  obtain ⟨q, _, rfl⟩ := hp
  exact ⟨rfl, rfl⟩

/-! ### Claim C1 — round winner -/

/-- C1 (counterexample): on a zero-survivor wipe the source still reports a
winner.  With players B and C both dead (B at t=100, C at t=200), no player is
alive, yet `winnerId` is `some "C"` (the latest death takes first place), not
absent as the claim requires for a draw. -/
theorem c1_counterexample :
    ([pB, pC].filter (fun p => p.alive) = []) ∧
    winnerId [pB, pC] sampleDeathAt = some "C" := by decide

/-- C1 (amended): if exactly one player is alive, the computed `winnerId` is
that player's id; if no player is alive, `winnerId` is absent only when the
room has no players at all — on a zero-survivor wipe of a nonempty room it is
the id of a latest-dying player (the first-placed dead player), not absent. -/
theorem c1_roundWinner (players : List Player) (deathAt : String → Option Int) :
    (∀ p, players.filter (fun q => q.alive) = [p] → winnerId players deathAt = some p.id) ∧
    (players = [] → winnerId players deathAt = none) ∧
    (players ≠ [] → players.filter (fun q => q.alive) = [] →
      ∃ w, winnerId players deathAt = some w ∧
        ∃ q ∈ players, q.id = w ∧ q.alive = false ∧
          ∀ q' ∈ players, ((deathAt q'.id).getD 0) ≤ ((deathAt q.id).getD 0)) := by
  refine ⟨?_, ?_, ?_⟩
  · intro p hp
    simp only [winnerId, computePlacements, hp]
    simp [List.enum_cons]
  · intro h
    subst h
    simp [winnerId, computePlacements]
  · intro hne hnone
    have hall : ∀ q ∈ players, q.alive = false := by
      intro q hq
      have := List.filter_eq_nil_iff.mp hnone q hq
      simpa using this
    have hdead : players.filter (fun p => !p.alive) = players :=
      List.filter_eq_self.mpr (fun a ha => by simp [hall a ha])
    have hsorted : List.Sorted (deadRel deathAt) (players.insertionSort (deadRel deathAt)) :=
      List.sorted_insertionSort _ _
    have hperm : (players.insertionSort (deadRel deathAt)).Perm players :=
      List.perm_insertionSort _ _
    obtain ⟨q, t, hqt⟩ : ∃ q t, players.insertionSort (deadRel deathAt) = q :: t := by
      cases hds : players.insertionSort (deadRel deathAt) with
      | nil =>
        rw [hds] at hperm
        exact absurd hperm.symm.eq_nil hne
      | cons q t => exact ⟨q, t, rfl⟩
    refine ⟨q.id, ?_, q, ?_, rfl, ?_, ?_⟩
    · simp only [winnerId, computePlacements, hdead, hnone, hqt]
      simp [List.enum_cons]
    · exact hperm.mem_iff.mp (by simp [hqt])
    · exact hall q (hperm.mem_iff.mp (by simp [hqt]))
    · intro q' hq'
      have hq'mem : q' ∈ q :: t := by
        rw [← hqt]
        exact hperm.mem_iff.mpr hq'
      rcases List.mem_cons.mp hq'mem with h | h
      · subst h; exact le_refl _
      · have := (List.sorted_cons.mp (hqt ▸ hsorted)).1 q' h
        exact this

/-- C1 witness: the wipe branch applied to the concrete two-dead-player room
(B dead at 100, C dead at 200) names C, who died last, as the winner. -/
theorem c1_roundWinner_witness :
    ∃ w, winnerId [pB, pC] sampleDeathAt = some w ∧
      ∃ q ∈ [pB, pC], q.id = w ∧ q.alive = false ∧
        ∀ q' ∈ [pB, pC], ((sampleDeathAt q'.id).getD 0) ≤ ((sampleDeathAt q.id).getD 0) :=
  (c1_roundWinner [pB, pC] sampleDeathAt).2.2 (by decide) (by decide)

/-! ### Claim C5 — stale input -/

/-- C5 (counterexample): a call with `seq` equal to the player's last accepted
sequence number is not ignored: here `lastSeq = 5` and a call with `seq = 5`
overwrites the stored move vector and sets the dash-request flag.  The claim
("sequence ≤ last accepted is silently ignored") fails for equality; only
strictly smaller sequence numbers are dropped. -/
theorem c5_counterexample :
    ((handleInput (fun q => q) ⟨"a", "A", ⟨0, 0⟩, ⟨0, 0⟩, true, 0, 0, 5, false⟩
        ⟨⟨0, 0⟩, false, 5, ⟨0, 1⟩⟩ 5 ⟨1, 0⟩ true).2.move = ⟨1, 0⟩) ∧
    ((⟨⟨0, 0⟩, false, 5, ⟨0, 1⟩⟩ : InputState).move ≠ ⟨1, 0⟩) ∧
    ((handleInput (fun q => q) ⟨"a", "A", ⟨0, 0⟩, ⟨0, 0⟩, true, 0, 0, 5, false⟩
        ⟨⟨0, 0⟩, false, 5, ⟨0, 1⟩⟩ 5 ⟨1, 0⟩ true).2.dashRequest = true) := by
  refine ⟨?_, by simp, ?_⟩ <;>
    norm_num [handleInput, clamp, normalize, vlength, normSq]

/-- C5 (amended): a `handleInput` call whose sequence number is strictly
smaller than the last accepted one is silently ignored: the player record and
the input state (move vector, dash-request flag, last move direction,
sequence number) are left completely unchanged.  A call with an equal
sequence number is processed, not ignored. -/
theorem c5_staleInputIgnored (s : ℚ → ℚ) (p : Player) (input : InputState)
    (seq : Nat) (move : Vec2) (dash : Bool) (h : seq < input.lastSeq) :
    handleInput s p input seq move dash = (p, input) := by
  simp [handleInput, h]

/-- C5 witness: a concrete stale call (`seq = 1` against `lastSeq = 2`) is a
no-op. -/
theorem c5_staleInputIgnored_witness :
    handleInput (fun q => q) ⟨"a", "A", ⟨0, 0⟩, ⟨0, 0⟩, true, 0, 0, 2, false⟩
        ⟨⟨0, 0⟩, false, 2, ⟨0, 1⟩⟩ 1 ⟨1, 0⟩ true
      = (⟨"a", "A", ⟨0, 0⟩, ⟨0, 0⟩, true, 0, 0, 2, false⟩,
         ⟨⟨0, 0⟩, false, 2, ⟨0, 1⟩⟩) :=
  c5_staleInputIgnored _ _ _ _ _ _ (by decide)

/-! ### Claim C6 — placement ordering -/

/-- C6: the placements produced at round end list all currently-alive players
first (in their original order), followed by the eliminated players ordered by
death time descending (later death = better placement), with consecutive
1-based places; in particular, for A alive, B dead at t=100, C dead at t=200
the order is A=1st, C=2nd, B=3rd. -/
theorem c6_placementOrder (players : List Player) (deathAt : String → Option Int) :
    ((computePlacements players deathAt).map (fun x => x.place) =
       List.range' 1 players.length) ∧
    (((computePlacements players deathAt).map (fun x => x.id)).take
        ((players.filter (fun p => p.alive)).length) =
      (players.filter (fun p => p.alive)).map (fun p => p.id)) ∧
    ((((computePlacements players deathAt).map (fun x => x.id)).drop
        ((players.filter (fun p => p.alive)).length)).Perm
      ((players.filter (fun p => !p.alive)).map (fun p => p.id))) ∧
    (List.Pairwise (fun i j => ((deathAt j).getD 0) ≤ ((deathAt i).getD 0))
      (((computePlacements players deathAt).map (fun x => x.id)).drop
        ((players.filter (fun p => p.alive)).length))) ∧
    (computePlacements [pA, pB, pC] sampleDeathAt =
      [⟨"A", 1⟩, ⟨"C", 2⟩, ⟨"B", 3⟩]) := by
  have hids : (computePlacements players deathAt).map (fun x => x.id) =
      ((players.filter (fun p => p.alive)) ++
        ((players.filter (fun p => !p.alive)).insertionSort (deadRel deathAt))).map
        (fun p => p.id) := by
    simp only [computePlacements, List.map_map]
    rw [show ((fun x => x.id) ∘ fun ip => (⟨ip.2.id, ip.1 + 1⟩ : Placement)) =
        ((fun p => p.id) ∘ (Prod.snd : Nat × Player → Player)) from rfl]
    rw [← List.map_map, List.enum_map_snd]
  have hlen : ((players.filter (fun p => p.alive)) ++
      ((players.filter (fun p => !p.alive)).insertionSort (deadRel deathAt))).length =
      players.length := by
    rw [List.length_append, (List.perm_insertionSort _ _).length_eq,
      ← List.length_append, (List.filter_append_perm _ _).length_eq]
  refine ⟨?_, ?_, ?_, ?_, by decide⟩
  · simp only [computePlacements, List.map_map]
    rw [show ((fun x => x.place) ∘ fun ip => (⟨ip.2.id, ip.1 + 1⟩ : Placement)) =
        ((fun i => i + 1) ∘ (Prod.fst : Nat × Player → Nat)) from rfl]
    rw [← List.map_map, List.enum_map_fst, hlen, List.range'_eq_map_range]
    exact List.map_congr_left (fun i _ => Nat.add_comm i 1)
  · rw [hids, List.map_append]
    have := List.take_left ((players.filter (fun p => p.alive)).map (fun p => p.id))
      (((players.filter (fun p => !p.alive)).insertionSort (deadRel deathAt)).map
        (fun p => p.id))
    rwa [List.length_map] at this
  · rw [hids, List.map_append]
    have := List.drop_left ((players.filter (fun p => p.alive)).map (fun p => p.id))
      (((players.filter (fun p => !p.alive)).insertionSort (deadRel deathAt)).map
        (fun p => p.id))
    rw [List.length_map] at this
    rw [this]
    exact (List.perm_insertionSort _ _).map _
  · rw [hids, List.map_append]
    have := List.drop_left ((players.filter (fun p => p.alive)).map (fun p => p.id))
      (((players.filter (fun p => !p.alive)).insertionSort (deadRel deathAt)).map
        (fun p => p.id))
    rw [List.length_map] at this
    rw [this]
    have hp : List.Pairwise (deadRel deathAt)
        ((players.filter (fun p => !p.alive)).insertionSort (deadRel deathAt)) :=
      List.sorted_insertionSort _ _
    exact List.Pairwise.map (R := deadRel deathAt) (fun p => p.id) (fun a b h => h) hp

/-! ### Claim C9 — leaderboard snapshot -/

lemma lbRel_iff (a b : LeaderboardEntry) : lbRel a b ↔
    b.wins < a.wins ∨ (a.wins = b.wins ∧ (a.avgPlace < b.avgPlace ∨
      (a.avgPlace = b.avgPlace ∧ b.games ≤ a.games))) := by
  unfold lbRel
  split_ifs with h1 h2
  · constructor
    · intro h; exact Or.inl h
    · rintro (h | ⟨h, _⟩)
      · exact h
      · exact absurd h.symm h1
  · constructor
    · intro h
      exact Or.inr ⟨by omega, Or.inl h⟩
    · rintro (h | ⟨_, h | ⟨h, _⟩⟩)
      · omega
      · exact h
      · exact absurd h h2
  · constructor
    · intro h
      refine Or.inr ⟨?_, Or.inr ⟨?_, h⟩⟩
      · omega
      · by_contra hne
        exact h2 hne
    · rintro (h | ⟨_, h | ⟨_, h⟩⟩)
      · omega
      · exact absurd h (by push_neg at h2; simp [h2])
      · exact h

instance : IsTotal LeaderboardEntry lbRel := by
  constructor
  intro a b
  rw [lbRel_iff, lbRel_iff]
  rcases lt_trichotomy a.wins b.wins with h | h | h
  · exact Or.inr (Or.inl h)
  · rcases lt_trichotomy a.avgPlace b.avgPlace with h' | h' | h'
    · exact Or.inl (Or.inr ⟨h, Or.inl h'⟩)
    · rcases Nat.le_total b.games a.games with h'' | h''
      · exact Or.inl (Or.inr ⟨h, Or.inr ⟨h', h''⟩⟩)
      · exact Or.inr (Or.inr ⟨h.symm, Or.inr ⟨h'.symm, h''⟩⟩)
    · exact Or.inr (Or.inr ⟨h.symm, Or.inl h'⟩)
  · exact Or.inl (Or.inl h)

instance : IsTrans LeaderboardEntry lbRel := by
  constructor
  intro a b c hab hbc
  rw [lbRel_iff] at hab hbc ⊢
  rcases hab with h1 | ⟨h1, h1'⟩
  · rcases hbc with h2 | ⟨h2, _⟩
    · exact Or.inl (lt_trans h2 h1)
    · exact Or.inl (h2 ▸ h1)
  · rcases hbc with h2 | ⟨h2, h2'⟩
    · exact Or.inl (h1 ▸ h2)
    · refine Or.inr ⟨h1.trans h2, ?_⟩
      rcases h1' with h3 | ⟨h3, h3'⟩
      · rcases h2' with h4 | ⟨h4, _⟩
        · exact Or.inl (lt_trans h3 h4)
        · exact Or.inl (h4 ▸ h3)
      · rcases h2' with h4 | ⟨h4, h4'⟩
        · exact Or.inl (h3 ▸ h4)
        · exact Or.inr ⟨h3.trans h4, le_trans h4' h3'⟩

/-- C9: the leaderboard's ranked snapshot is sorted by `lbRel` (wins
descending, then average placement ascending, then games played descending);
every listed entry belongs to a currently-connected player, and a player id
that is absent from the room is omitted even when its statistics are still
stored.  The claim's example: two entries with equal wins, averages 1.2 vs
1.5, rank the 1.2-average entry first. -/
theorem c9_leaderboard (stats : List (String × LeaderboardStats)) (players : List Player) :
    (List.Pairwise lbRel (lbSnapshot stats players)) ∧
    (∀ e ∈ lbSnapshot stats players, ∃ p ∈ players, p.id = e.id) ∧
    (∀ id st, (id, st) ∈ stats → (∀ p ∈ players, p.id ≠ id) →
      ∀ e ∈ lbSnapshot stats players, e.id ≠ id) ∧
    (List.insertionSort lbRel
        [⟨"p1", "P1", 2, 4, 6, 3/2⟩, ⟨"p2", "P2", 2, 3, 4, 6/5⟩] =
      [⟨"p2", "P2", 2, 3, 4, 6/5⟩, ⟨"p1", "P1", 2, 4, 6, 3/2⟩]) := by
  have hmem : ∀ e ∈ lbSnapshot stats players, ∃ p ∈ players, p.id = e.id := by
    intro e he
    have he' := (List.perm_insertionSort lbRel _).mem_iff.mp he
    rw [List.mem_filterMap] at he'
    obtain ⟨⟨id', st'⟩, _, hsome⟩ := he'
    revert hsome
    cases hfind : players.find? (fun p => p.id = id') with
    | none => intro hsome; simp at hsome
    | some p =>
      intro hsome
      simp only [Option.some.injEq] at hsome
      refine ⟨p, List.mem_of_find?_eq_some hfind, ?_⟩
      have := List.find?_some hfind
      simp only [decide_eq_true_eq] at this
      rw [← hsome, this]
  refine ⟨List.sorted_insertionSort _ _, hmem, ?_, ?_⟩
  · intro id st _ hnot e he heq
    obtain ⟨p, hp, hpid⟩ := hmem e he
    exact hnot p hp (heq ▸ hpid)
  · norm_num [List.insertionSort, List.orderedInsert, lbRel]

/-- C9 witness: with stored statistics for the disconnected id "x" and only
player A in the room, the snapshot omits "x". -/
theorem c9_leaderboard_witness :
    ∀ e ∈ lbSnapshot [("x", ⟨1, 1, 1⟩)] [pA], e.id ≠ "x" :=
  (c9_leaderboard [("x", ⟨1, 1, 1⟩)] [pA]).2.2.1 "x" ⟨1, 1, 1⟩ (by decide)
    (by decide)

/-! ### Claim C2 — spawn assignment -/

lemma swapL_length {α : Type} (l : List α) (i j : Nat) :
    (swapL l i j).length = l.length := by
  unfold swapL
  split <;> simp

lemma mem_of_mem_swapL {α : Type} {l : List α} {i j : Nat} {x : α}
    (h : x ∈ swapL l i j) : x ∈ l := by
  unfold swapL at h
  split at h
  case _ a b hi hj =>
    rcases List.mem_or_eq_of_mem_set h with h' | rfl
    · rcases List.mem_or_eq_of_mem_set h' with h'' | rfl
      · exact h''
      · exact List.get?_mem hj
    · exact List.get?_mem hi
  case _ => exact h

lemma shuffleFrom_length {α : Type} (f : Nat → Nat) (i : Nat) (l : List α) :
    (shuffleFrom f i l).length = l.length := by
  induction i generalizing l with
  | zero => rfl
  | succ i ih => rw [shuffleFrom, ih, swapL_length]

lemma mem_of_mem_shuffleFrom {α : Type} {f : Nat → Nat} {i : Nat} {l : List α} {x : α}
    (h : x ∈ shuffleFrom f i l) : x ∈ l := by
  induction i generalizing l with
  | zero => exact h
  | succ i ih => exact mem_of_mem_swapL (ih h)

lemma shuffleList_length {α : Type} (f : Nat → Nat) (l : List α) :
    (shuffleList f l).length = l.length := by
  rw [shuffleList, shuffleFrom_length]

lemma mem_of_mem_shuffleList {α : Type} {f : Nat → Nat} {l : List α} {x : α}
    (h : x ∈ shuffleList f l) : x ∈ l :=
  mem_of_mem_shuffleFrom h

lemma innerRing_length : (innerPerimeterTiles MAP_WIDTH MAP_HEIGHT).length = 48 := by
  decide

lemma randomInnerPerimeterPositions_length (f : Nat → Nat) (n : Nat) :
    (randomInnerPerimeterPositions f n).length = min n 48 := by
  unfold randomInnerPerimeterPositions
  have hne : (innerPerimeterTiles MAP_WIDTH MAP_HEIGHT).isEmpty = false := by decide
  simp only [hne, Bool.false_eq_true, if_false, List.length_take, shuffleList_length,
    innerRing_length]
  omega

lemma mem_randomInnerPerimeterPositions {f : Nat → Nat} {n : Nat} {q : Nat × Nat}
    (h : q ∈ randomInnerPerimeterPositions f n) :
    q ∈ innerPerimeterTiles MAP_WIDTH MAP_HEIGHT := by
  unfold randomInnerPerimeterPositions at h
  have hne : (innerPerimeterTiles MAP_WIDTH MAP_HEIGHT).isEmpty = false := by decide
  simp only [hne, Bool.false_eq_true, if_false] at h
  exact mem_of_mem_shuffleList (List.mem_of_mem_take h)

/-- C2 (counterexample): with 49 players on the 15×15 grid (inner ring of 48
cells) the spawn list is truncated to 48 entries — there is no cyclic
repetition, and `startRound` would index past the end of the spawn array for
the 49th player (modelled by `startRoundSpawns` returning `none`), so the
claim "positions repeat cyclically over the ring, leaving no player
unassigned" fails. -/
theorem c2_counterexample :
    (randomInnerPerimeterPositions (fun _ => 0) 49).length = 48 ∧
    startRoundSpawns (fun _ => 0) (List.replicate 49 "p") = none := by decide

/-- C2 (amended): for every player count `n` with `1 ≤ n ≤ 48` (the ring size
of the 15×15 map), round setup assigns each of the `n` players a spawn tile
from the ring one cell inside the outer perimeter; the spawn list is
truncated to `min n 48`, so when players outnumber ring cells the excess
players receive no spawn (the source crashes on an out-of-bounds read) —
positions never repeat cyclically. -/
theorem c2_spawnAssignment (f : Nat → Nat) (ids : List String)
    (h1 : ids ≠ []) (h2 : ids.length ≤ 48) :
    ∃ l, startRoundSpawns f ids = some l ∧ l.map Prod.fst = ids ∧
      ∀ q ∈ l, q.2 ∈ innerPerimeterTiles MAP_WIDTH MAP_HEIGHT := by
  have hlen : (randomInnerPerimeterPositions f ids.length).length = ids.length := by
    rw [randomInnerPerimeterPositions_length]
    omega
  refine ⟨ids.zip (randomInnerPerimeterPositions f ids.length), ?_, ?_, ?_⟩
  · unfold startRoundSpawns
    rw [if_neg (by omega)]
  · exact List.map_fst_zip _ _ (le_of_eq hlen.symm)
  · intro q hq
    have := List.of_mem_zip (show (q.1, q.2) ∈ _ from hq)
    exact mem_randomInnerPerimeterPositions this.2

/-- C2 witness: a single player receives a spawn on the inner ring. -/
theorem c2_spawnAssignment_witness :
    ∃ l, startRoundSpawns (fun _ => 0) ["a"] = some l ∧ l.map Prod.fst = ["a"] ∧
      ∀ q ∈ l, q.2 ∈ innerPerimeterTiles MAP_WIDTH MAP_HEIGHT :=
  c2_spawnAssignment (fun _ => 0) ["a"] (by decide) (by decide)

/-! ### Claim C7 — dash cooldown -/

/-- C7: a dash cannot be re-triggered before `dashCooldownUntil`.  First
conjunct (general): on any tick whose time is strictly before the player's
`dashCooldownUntil`, the dash-start step changes nothing about the player —
no impulse, no `dashUntil` update.  Remaining conjuncts (the three-request
scenario, mirroring the repo's test): starting from a player with expired
cooldown and pending request at tick `t0`, the dash fires (one impulse `10`
along the last move direction `(0,1)`, `dashUntil = t0 + 180`,
`dashCooldownUntil = t0 + 2000`); a second request issued and ticked at
`t1 < t0 + 2000` leaves the player unchanged (still exactly one impulse, one
`dashUntil` setting); a third request ticked at `t2 ≥ t0 + 2000` fires a
second dash (`vel = (0,20)`, `dashUntil = t2 + 180`). -/
theorem c7_dashCooldown (s : ℚ → ℚ) (t0 t1 t2 : Int)
    (hs1 : s 1 = 1) (ht0 : 0 ≤ t0) (ht1 : t1 < t0 + DASH_COOLDOWN_MS)
    (ht2 : t0 + DASH_COOLDOWN_MS ≤ t2) :
    (∀ (q : Player) (inp : InputState) (now : Int),
      now < q.dashCooldownUntil → handleDashStart s now q inp = (q, inp)) ∧
    (let p0 : Player := ⟨"a", "A", ⟨0, 0⟩, ⟨0, 0⟩, true, 0, 0, 1, false⟩
     let inp0 : InputState := ⟨⟨0, 1⟩, true, 1, ⟨0, 1⟩⟩
     let r1 := handleDashStart s t0 p0 inp0
     let h2 := handleInput s r1.1 r1.2 2 ⟨0, 1⟩ true
     let r2 := handleDashStart s t1 h2.1 h2.2
     let h3 := handleInput s r2.1 r2.2 3 ⟨0, 1⟩ true
     let r3 := handleDashStart s t2 h3.1 h3.2
     r1.1.vel = ⟨0, 10⟩ ∧ r1.1.dashUntil = t0 + DASH_DURATION_MS ∧
     r1.1.dashCooldownUntil = t0 + DASH_COOLDOWN_MS ∧
     r2.1 = h2.1 ∧ r2.1.vel = ⟨0, 10⟩ ∧ r2.1.dashUntil = t0 + DASH_DURATION_MS ∧
     r3.1.vel = ⟨0, 20⟩ ∧ r3.1.dashUntil = t2 + DASH_DURATION_MS) := by
  have ht1' : ¬ (t0 + DASH_COOLDOWN_MS ≤ t1) := by omega
  constructor
  · intro q inp now hlt
    rw [handleDashStart, if_neg]
    rintro ⟨-, hle⟩
    omega
  · have hr1 : handleDashStart s t0 ⟨"a", "A", ⟨0, 0⟩, ⟨0, 0⟩, true, 0, 0, 1, false⟩
        ⟨⟨0, 1⟩, true, 1, ⟨0, 1⟩⟩ =
        (⟨"a", "A", ⟨0, 0⟩, ⟨0, 10⟩, true, t0 + DASH_COOLDOWN_MS,
          t0 + DASH_DURATION_MS, 1, false⟩, ⟨⟨0, 1⟩, false, 1, ⟨0, 1⟩⟩) := by
      norm_num [handleDashStart, normalize, vlength, normSq, vadd, vmul,
        DASH_IMPULSE, hs1, ht0]
    have hh2 : handleInput s
        (⟨"a", "A", ⟨0, 0⟩, ⟨0, 10⟩, true, t0 + DASH_COOLDOWN_MS,
          t0 + DASH_DURATION_MS, 1, false⟩ : Player)
        (⟨⟨0, 1⟩, false, 1, ⟨0, 1⟩⟩ : InputState) 2 ⟨0, 1⟩ true =
        (⟨"a", "A", ⟨0, 0⟩, ⟨0, 10⟩, true, t0 + DASH_COOLDOWN_MS,
          t0 + DASH_DURATION_MS, 2, false⟩, ⟨⟨0, 1⟩, true, 2, ⟨0, 1⟩⟩) := by
      norm_num [handleInput, normalize, vlength, normSq, clamp, hs1]
    have hr2 : handleDashStart s t1
        (⟨"a", "A", ⟨0, 0⟩, ⟨0, 10⟩, true, t0 + DASH_COOLDOWN_MS,
          t0 + DASH_DURATION_MS, 2, false⟩ : Player)
        (⟨⟨0, 1⟩, true, 2, ⟨0, 1⟩⟩ : InputState) =
        (⟨"a", "A", ⟨0, 0⟩, ⟨0, 10⟩, true, t0 + DASH_COOLDOWN_MS,
          t0 + DASH_DURATION_MS, 2, false⟩, ⟨⟨0, 1⟩, true, 2, ⟨0, 1⟩⟩) := by
      rw [handleDashStart, if_neg]
      rintro ⟨-, hle⟩
      exact ht1' hle
    have hh3 : handleInput s
        (⟨"a", "A", ⟨0, 0⟩, ⟨0, 10⟩, true, t0 + DASH_COOLDOWN_MS,
          t0 + DASH_DURATION_MS, 2, false⟩ : Player)
        (⟨⟨0, 1⟩, true, 2, ⟨0, 1⟩⟩ : InputState) 3 ⟨0, 1⟩ true =
        (⟨"a", "A", ⟨0, 0⟩, ⟨0, 10⟩, true, t0 + DASH_COOLDOWN_MS,
          t0 + DASH_DURATION_MS, 3, false⟩, ⟨⟨0, 1⟩, true, 3, ⟨0, 1⟩⟩) := by
      norm_num [handleInput, normalize, vlength, normSq, clamp, hs1]
    have hr3 : handleDashStart s t2
        (⟨"a", "A", ⟨0, 0⟩, ⟨0, 10⟩, true, t0 + DASH_COOLDOWN_MS,
          t0 + DASH_DURATION_MS, 3, false⟩ : Player)
        (⟨⟨0, 1⟩, true, 3, ⟨0, 1⟩⟩ : InputState) =
        (⟨"a", "A", ⟨0, 0⟩, ⟨0, 20⟩, true, t2 + DASH_COOLDOWN_MS,
          t2 + DASH_DURATION_MS, 3, false⟩, ⟨⟨0, 1⟩, false, 3, ⟨0, 1⟩⟩) := by
      norm_num [handleDashStart, normalize, vlength, normSq, vadd, vmul,
        DASH_IMPULSE, hs1, ht2]
    simp only [hr1, hh2, hr2, hh3, hr3]
    norm_num

/-- C7 witness: the scenario with `s` the identity (exact on the unit inputs
used), `t0 = 0`, `t1 = 1999`, `t2 = 2000`. -/
theorem c7_dashCooldown_witness :
    (∀ (q : Player) (inp : InputState) (now : Int),
      now < q.dashCooldownUntil →
        handleDashStart (fun x => x) now q inp = (q, inp)) ∧
    (let p0 : Player := ⟨"a", "A", ⟨0, 0⟩, ⟨0, 0⟩, true, 0, 0, 1, false⟩
     let inp0 : InputState := ⟨⟨0, 1⟩, true, 1, ⟨0, 1⟩⟩
     let r1 := handleDashStart (fun x => x) 0 p0 inp0
     let h2 := handleInput (fun x => x) r1.1 r1.2 2 ⟨0, 1⟩ true
     let r2 := handleDashStart (fun x => x) 1999 h2.1 h2.2
     let h3 := handleInput (fun x => x) r2.1 r2.2 3 ⟨0, 1⟩ true
     let r3 := handleDashStart (fun x => x) 2000 h3.1 h3.2
     r1.1.vel = ⟨0, 10⟩ ∧ r1.1.dashUntil = 0 + DASH_DURATION_MS ∧
     r1.1.dashCooldownUntil = 0 + DASH_COOLDOWN_MS ∧
     r2.1 = h2.1 ∧ r2.1.vel = ⟨0, 10⟩ ∧ r2.1.dashUntil = 0 + DASH_DURATION_MS ∧
     r3.1.vel = ⟨0, 20⟩ ∧ r3.1.dashUntil = 2000 + DASH_DURATION_MS) :=
  c7_dashCooldown (fun x => x) 0 1999 2000 rfl (by decide) (by decide) (by decide)

/-! ### Claim C8 — tile-state monotonicity -/

/-- Position of a tile state along the one-way lifecycle
solid → shaking → fallen. -/
def rank : TileState → Nat
  | .solid => 0
  | .shaking => 1
  | .fallen => 2

/-- One engine operation's effect on the tile array respects the lifecycle:
lengths are preserved, every tile's state only moves forward along
solid → shaking → fallen, and a tile that is already shaking or fallen keeps
its shake-start and scheduled fall time (it is never re-shaken or
re-scheduled). -/
def TileStep (ts ts' : List Tile) : Prop :=
  ts'.length = ts.length ∧
  ∀ (i : Nat) (t t' : Tile), ts.get? i = some t → ts'.get? i = some t' →
    rank t.state ≤ rank t'.state ∧
    (t.state ≠ .solid → t'.shakeStartMs = t.shakeStartMs ∧ t'.fallAtMs = t.fallAtMs)

lemma tileStep_refl (ts : List Tile) : TileStep ts ts := by
  refine ⟨rfl, ?_⟩
  intro i t t' h h'
  rw [h] at h'
  cases h'
  exact ⟨le_refl _, fun _ => ⟨rfl, rfl⟩⟩

lemma tileStep_trans {a b c : List Tile} (h1 : TileStep a b) (h2 : TileStep b c) :
    TileStep a c := by
  refine ⟨h2.1.trans h1.1, ?_⟩
  intro i t t' ht ht'
  have hlt : i < b.length := by
    rw [h1.1]
    rw [List.get?_eq_getElem?] at ht
    exact (List.getElem?_eq_some.mp ht).1
  obtain ⟨tm, htm⟩ : ∃ tm, b.get? i = some tm := by
    cases hbi : b.get? i with
    | none =>
      rw [List.get?_eq_getElem?, List.getElem?_eq_none_iff] at hbi
      omega
    | some tm => exact ⟨tm, rfl⟩
  obtain ⟨hr1, hk1⟩ := h1.2 i t tm ht htm
  obtain ⟨hr2, hk2⟩ := h2.2 i tm t' htm ht'
  refine ⟨hr1.trans hr2, ?_⟩
  intro hs
  have hm : tm.state ≠ .solid := by
    intro he
    rw [he] at hr1
    cases hts : t.state
    · exact hs hts
    · rw [hts] at hr1; simp [rank] at hr1
    · rw [hts] at hr1; simp [rank] at hr1
  obtain ⟨e1, e2⟩ := hk1 hs
  obtain ⟨e3, e4⟩ := hk2 hm
  exact ⟨e3.trans e1, e4.trans e2⟩

/-- Replacing a solid tile by its shaken version is a lifecycle-respecting
step. -/
lemma tileStep_set_shake {ts : List Tile} {idx : Nat} {t0 : Tile} (now : Int)
    (ht : ts.get? idx = some t0) (hs : t0.state = .solid) :
    TileStep ts (ts.set idx (shakeTile now t0)) := by
  refine ⟨List.length_set ts idx _, ?_⟩
  intro i t t' h h'
  rw [List.get?_eq_getElem?] at h h'
  rw [List.getElem?_set] at h'
  by_cases he : idx = i
  · subst he
    rw [if_pos rfl, if_pos (by rw [List.get?_eq_getElem?] at ht; exact (List.getElem?_eq_some.mp ht).1)] at h'
    cases h'
    rw [List.get?_eq_getElem?] at ht
    rw [ht] at h
    cases h
    rw [hs]
    exact ⟨by simp [rank, shakeTile], fun hne => absurd rfl hne⟩
  · rw [if_neg he] at h'
    rw [h] at h'
    cases h'
    exact ⟨le_refl _, fun _ => ⟨rfl, rfl⟩⟩

lemma stepOnTile_tileStep (now : Int) (acc : List Tile × List GameEvent) (pos : Vec2) :
    TileStep acc.1 (stepOnTile now acc pos).1 := by
  unfold stepOnTile
  cases posToTile pos with
  | none => exact tileStep_refl _
  | some tt =>
    simp only
    cases hget : acc.1.get? (tileIndex tt.1 tt.2) with
    | none => exact tileStep_refl _
    | some t =>
      show TileStep acc.1
        (if t.state = .solid then
          (acc.1.set (tileIndex tt.1 tt.2) (shakeTile now t),
           acc.2 ++ [GameEvent.tile_shake (tileIndex tt.1 tt.2)])
        else acc).1
      by_cases hsolid : t.state = .solid
      · rw [if_pos hsolid]
        exact tileStep_set_shake now hget hsolid
      · rw [if_neg hsolid]
        exact tileStep_refl _

lemma stepPlayerTiles_tileStep (now : Int) (positions : List Vec2)
    (tiles : List Tile) : TileStep tiles (stepPlayerTiles now positions tiles).1 := by
  suffices h : ∀ (ps : List Vec2) (acc : List Tile × List GameEvent),
      TileStep acc.1 (ps.foldl (stepOnTile now) acc).1 by
    exact h positions (tiles, [])
  intro ps
  induction ps with
  | nil => exact fun acc => tileStep_refl _
  | cons p ps ih =>
    intro acc
    exact tileStep_trans (stepOnTile_tileStep now acc p) (ih (stepOnTile now acc p))

lemma maybeRandomShake_tileStep (r : Nat) (now nextAt : Int) (tiles : List Tile) :
    TileStep tiles (maybeRandomShake r now nextAt tiles).1 := by
  unfold maybeRandomShake
  by_cases htime : now < nextAt
  · rw [if_pos htime]
    exact tileStep_refl _
  · rw [if_neg htime]
    simp only
    by_cases hempty :
        ((tiles.enum.filter (fun it => it.2.state = .solid)).map (fun it => it.1)).isEmpty
    · rw [if_pos hempty]
      exact tileStep_refl _
    · rw [if_neg hempty]
      set solids := (tiles.enum.filter (fun it => it.2.state = .solid)).map (fun it => it.1)
        with hsolids
      have hlen : 0 < solids.length := by
        cases hcl : solids with
        | nil => rw [hcl] at hempty; simp at hempty
        | cons a l => simp [hcl]
      have hmem : solids.getD (r % solids.length) 0 ∈ solids := by
        have hlt : r % solids.length < solids.length := Nat.mod_lt _ hlen
        rw [List.getD_eq_getElem?_getD]
        cases hx : solids[r % solids.length]? with
        | none =>
          rw [List.getElem?_eq_none_iff] at hx
          omega
        | some a =>
          simp only [Option.getD_some]
          exact List.getElem?_mem hx
      obtain ⟨it, hit, hidx⟩ : ∃ it, it ∈ tiles.enum.filter (fun it => it.2.state = .solid) ∧
          it.1 = solids.getD (r % solids.length) 0 := by
        rw [hsolids] at hmem
        obtain ⟨it, hit, he⟩ := List.mem_map.mp hmem
        exact ⟨it, hit, he⟩
      obtain ⟨hmem', hstate⟩ := List.mem_filter.mp hit
      have hget : tiles.get? it.1 = some it.2 := by
        rw [List.get?_eq_getElem?]
        exact List.mem_enum_iff_getElem?.mp (by cases it; exact hmem')
      rw [← hidx] at *
      rw [hget]
      exact tileStep_set_shake now hget (of_decide_eq_true hstate)

/-- C8: within a round every tile's state only moves forward along
solid → shaking → fallen: the player tile-stepping pass, the random hazard
shake, and the tile-fall pass each preserve the lifecycle order, and a tile
that is already shaking or fallen keeps its shake-start and scheduled fall
time (it is never re-shaken nor re-scheduled). -/
theorem c8_tileMonotone :
    (∀ (now : Int) (positions : List Vec2) (tiles : List Tile),
      TileStep tiles (stepPlayerTiles now positions tiles).1) ∧
    (∀ (r : Nat) (now nextAt : Int) (tiles : List Tile),
      TileStep tiles (maybeRandomShake r now nextAt tiles).1) ∧
    (∀ (now : Int) (tiles : List Tile),
      TileStep tiles (processTileFalls now tiles).1) := by
  refine ⟨stepPlayerTiles_tileStep, maybeRandomShake_tileStep, ?_⟩
  intro now tiles
  refine ⟨by simp [processTileFalls], ?_⟩
  intro i t t' h h'
  simp only [processTileFalls] at h'
  rw [List.get?_eq_getElem?] at h h'
  rw [List.getElem?_map, h] at h'
  rw [Option.map_some'] at h'
  cases h'
  unfold fallTile
  by_cases hf : shouldFall now t = true
  · rw [if_pos hf]
    have hst : t.state = .shaking := by
      unfold shouldFall at hf
      simp only [Bool.and_eq_true, decide_eq_true_eq] at hf
      exact hf.1
    rw [hst]
    exact ⟨by simp [rank], fun _ => ⟨rfl, rfl⟩⟩
  · rw [if_neg hf]
    exact ⟨le_refl _, fun _ => ⟨rfl, rfl⟩⟩

/-- C8 witness: the tile-fall pass on a single shaking tile (due at 5, tick
at 10) moves its state forward and keeps its shake-start and fall time. -/
theorem c8_tileMonotone_witness :
    rank TileState.shaking ≤ rank TileState.fallen ∧
    (TileState.shaking ≠ TileState.solid →
      ((⟨0, .fallen, some 0, some 5⟩ : Tile).shakeStartMs =
        (⟨0, .shaking, some 0, some 5⟩ : Tile).shakeStartMs ∧
       (⟨0, .fallen, some 0, some 5⟩ : Tile).fallAtMs =
        (⟨0, .shaking, some 0, some 5⟩ : Tile).fallAtMs)) :=
  (c8_tileMonotone.2.2 10 [⟨0, .shaking, some 0, some 5⟩]).2 0
    ⟨0, .shaking, some 0, some 5⟩ ⟨0, .fallen, some 0, some 5⟩ (by decide) (by decide)

/-! ### Claim C4 — tile fall eliminates occupants -/

/-- Falling of a due shaking tile under `processTileFalls`. -/
lemma processTileFalls_fallen {tiles : List Tile} {idx : Nat} {t : Tile} {f now : Int}
    (h : tiles.get? idx = some t) (hs : t.state = .shaking)
    (hf : t.fallAtMs = some f) (hfn : f ≤ now) :
    (processTileFalls now tiles).1.get? idx = some { t with state := .fallen } := by
  simp only [processTileFalls]
  rw [List.get?_eq_getElem?] at h ⊢
  rw [List.getElem?_map, h, Option.map_some']
  have hsf : shouldFall now t = true := by
    unfold shouldFall
    rw [hf]
    simp [hs, hfn]
  rw [fallTile, if_pos hsf]

/-- `elimOne` touches the unsupported-since and death maps only at the
processed player's own id. -/
lemma elimOne_frame (now : Int) (tiles : List Tile) (p : Player)
    (us da : String → Option Int) (evs : List GameEvent) (x : String) (hx : x ≠ p.id) :
    (elimOne now tiles p us da evs).2.1 x = us x ∧
    (elimOne now tiles p us da evs).2.2.1 x = da x := by
  simp only [elimOne]
  split
  · exact ⟨rfl, rfl⟩
  · split
    · exact ⟨by simp [mapErase, hx], by simp [mapInsert, hx]⟩
    · split
      · exact ⟨rfl, rfl⟩
      · split
        · split
          · exact ⟨by simp [mapErase, mapInsert, hx], by simp [mapInsert, hx]⟩
          · exact ⟨by simp [mapInsert, hx], rfl⟩
        · exact ⟨by simp [mapErase, hx], rfl⟩

/-- `elimOne` only appends to the event buffer. -/
lemma elimOne_events (now : Int) (tiles : List Tile) (p : Player)
    (us da : String → Option Int) (evs : List GameEvent) :
    ∃ tail, (elimOne now tiles p us da evs).2.2.2 = evs ++ tail := by
  simp only [elimOne]
  split
  · exact ⟨[], by simp⟩
  · split
    · exact ⟨[GameEvent.death p.id], rfl⟩
    · split
      · exact ⟨[], by simp⟩
      · split
        · split
          · exact ⟨[GameEvent.death p.id], rfl⟩
          · exact ⟨[], by simp⟩
        · exact ⟨[], by simp⟩

/-- An alive, non-dashing player standing on a fallen tile whose
unsupported-since entry (if any) is not in the future is eliminated by
`elimOne`: alive cleared, death time recorded, death event emitted. -/
lemma elimOne_kills (now : Int) (tiles : List Tile) (p : Player)
    (us da : String → Option Int) (evs : List GameEvent)
    (hal : p.alive = true) (tt : Nat × Nat) (hpt : posToTile p.pos = some tt)
    (t : Tile) (hgt : tiles.get? (tileIndex tt.1 tt.2) = some t)
    (hf : t.state = .fallen) (hd : p.dashUntil ≤ now)
    (hus : ∀ v, us p.id = some v → v ≤ now) :
    (elimOne now tiles p us da evs).1 = { p with alive := false } ∧
    (elimOne now tiles p us da evs).2.2.1 p.id = some now ∧
    (elimOne now tiles p us da evs).2.2.2 = evs ++ [GameEvent.death p.id] := by
  have hstart : (us p.id).getD now ≤ now := by
    cases hu : us p.id with
    | none => simp
    | some v => simpa using hus v hu
  have hdash : ¬ now < p.dashUntil := by omega
  have hge : now - (us p.id).getD now ≥ FALL_GRACE_MS := by
    unfold FALL_GRACE_MS
    omega
  have hal' : ¬ p.alive = false := by simp [hal]
  rw [List.get?_eq_getElem?] at hgt
  simp [elimOne, hal', hpt, hgt, hf, hdash, hge, mapInsert]

/-- `checkEliminations` only appends to the event buffer. -/
lemma checkEliminations_events_mono (now : Int) (tiles : List Tile) :
    ∀ (ps : List Player) (us da : String → Option Int) (evs : List GameEvent),
      ∃ tail, (checkEliminations now tiles ps us da evs).events = evs ++ tail := by
  intro ps
  induction ps with
  | nil => exact fun us da evs => ⟨[], by simp [checkEliminations]⟩
  | cons q rest ih =>
    intro us da evs
    obtain ⟨t1, h1⟩ := elimOne_events now tiles q us da evs
    obtain ⟨t2, h2⟩ := ih (elimOne now tiles q us da evs).2.1
      (elimOne now tiles q us da evs).2.2.1 (elimOne now tiles q us da evs).2.2.2
    refine ⟨t1 ++ t2, ?_⟩
    simp only [checkEliminations]
    rw [h2, h1, List.append_assoc]

/-- `checkEliminations` leaves the death map untouched at ids that belong to
no processed player. -/
lemma checkEliminations_da_frame (now : Int) (tiles : List Tile) :
    ∀ (ps : List Player) (us da : String → Option Int) (evs : List GameEvent)
      (x : String), (∀ q ∈ ps, q.id ≠ x) →
      (checkEliminations now tiles ps us da evs).deathAt x = da x := by
  intro ps
  induction ps with
  | nil => exact fun us da evs x _ => rfl
  | cons q rest ih =>
    intro us da evs x hx
    simp only [checkEliminations]
    rw [ih _ _ _ x (fun q' hq' => hx q' (List.mem_cons_of_mem _ hq'))]
    exact (elimOne_frame now tiles q us da evs x
      (Ne.symm (hx q (List.mem_cons_self _ _)))).2

/-- Core induction for C4: any alive, non-dashing player of the room whose
position maps to a fallen tile (and whose unsupported-since entry, if any, is
not in the future) comes out of `checkEliminations` eliminated, with death
time recorded and a death event emitted. -/
lemma checkEliminations_kills (now : Int) (tiles : List Tile) :
    ∀ (ps : List Player) (us da : String → Option Int) (evs : List GameEvent)
      (p : Player), p ∈ ps → (ps.map (fun q => q.id)).Nodup → p.alive = true →
      (∀ v, us p.id = some v → v ≤ now) →
      (∃ tt, posToTile p.pos = some tt ∧
        ∃ t, tiles.get? (tileIndex tt.1 tt.2) = some t ∧ t.state = .fallen) →
      p.dashUntil ≤ now →
      ∃ p' ∈ (checkEliminations now tiles ps us da evs).players,
        p'.id = p.id ∧ p'.alive = false ∧
        (checkEliminations now tiles ps us da evs).deathAt p.id = some now ∧
        GameEvent.death p.id ∈ (checkEliminations now tiles ps us da evs).events := by
  intro ps
  induction ps with
  | nil =>
    intro us da evs p hmem
    simp at hmem
  | cons q rest ih =>
    intro us da evs p hmem hnd hal hus hpos hd
    have hnd' : (rest.map (fun q => q.id)).Nodup := (List.nodup_cons.mp hnd).2
    rcases List.mem_cons.mp hmem with rfl | hmem'
    · obtain ⟨tt, hpt, t, hgt, hf⟩ := hpos
      obtain ⟨h1, h2, h3⟩ := elimOne_kills now tiles p us da evs hal tt hpt t hgt hf hd hus
      have hrestid : ∀ q' ∈ rest, q'.id ≠ p.id := by
        intro q' hq' he
        apply (List.nodup_cons.mp hnd).1
        show p.id ∈ List.map (fun q => q.id) rest
        rw [← he]
        exact List.mem_map_of_mem (fun q => q.id) hq'
      simp only [checkEliminations]
      refine ⟨{ p with alive := false }, ?_, rfl, rfl, ?_, ?_⟩
      · rw [← h1]
        exact List.mem_cons_self _ _
      · rw [checkEliminations_da_frame now tiles rest _ _ _ p.id hrestid, h2]
      · obtain ⟨tail, htail⟩ := checkEliminations_events_mono now tiles rest
          (elimOne now tiles p us da evs).2.1 (elimOne now tiles p us da evs).2.2.1
          (elimOne now tiles p us da evs).2.2.2
        rw [htail, h3]
        simp
    · have hqid : q.id ≠ p.id := by
        intro he
        apply (List.nodup_cons.mp hnd).1
        show q.id ∈ List.map (fun q => q.id) rest
        rw [he]
        exact List.mem_map_of_mem (fun q => q.id) hmem'
      have hus' : ∀ v, (elimOne now tiles q us da evs).2.1 p.id = some v → v ≤ now := by
        intro v hv
        rw [(elimOne_frame now tiles q us da evs p.id (Ne.symm hqid)).1] at hv
        exact hus v hv
      obtain ⟨p', hp', hid, hal', hda, hev⟩ := ih (elimOne now tiles q us da evs).2.1
        (elimOne now tiles q us da evs).2.2.1 (elimOne now tiles q us da evs).2.2.2
        p hmem' hnd' hal hus' hpos hd
      simp only [checkEliminations]
      exact ⟨p', List.mem_cons_of_mem _ hp', hid, hal', hda, hev⟩

/-- C4: on the first tick whose time reaches or passes a shaking tile's
scheduled fall time, the tile-fall pass turns that tile to fallen, and the
elimination pass of the same tick (which runs after it, with the modelled
grace window of 0 ms) eliminates every alive player whose position maps to
that tile and who has no active dash: alive set false, death time recorded,
death event emitted.  The unsupported-since hypothesis states that any
existing grace-timer entry was started at or before the current tick, which
holds in every reachable state. -/
theorem c4_tileFallElimination (now : Int) (tiles : List Tile) (idx : Nat)
    (t : Tile) (f : Int) (ps : List Player) (us da : String → Option Int)
    (evs : List GameEvent)
    (ht : tiles.get? idx = some t) (hs : t.state = .shaking)
    (hf : t.fallAtMs = some f) (hfn : f ≤ now)
    (hnd : (ps.map (fun q => q.id)).Nodup) :
    ((processTileFalls now tiles).1.get? idx = some { t with state := .fallen }) ∧
    (∀ p ∈ ps, p.alive = true →
      (∃ tt, posToTile p.pos = some tt ∧ tileIndex tt.1 tt.2 = idx) →
      p.dashUntil ≤ now →
      (∀ v, us p.id = some v → v ≤ now) →
      ∃ p' ∈ (checkEliminations now (processTileFalls now tiles).1 ps us da evs).players,
        p'.id = p.id ∧ p'.alive = false ∧
        (checkEliminations now (processTileFalls now tiles).1 ps us da evs).deathAt
          p.id = some now ∧
        GameEvent.death p.id ∈
          (checkEliminations now (processTileFalls now tiles).1 ps us da evs).events) := by
  have hfallen : (processTileFalls now tiles).1.get? idx = some { t with state := .fallen } :=
    processTileFalls_fallen ht hs hf hfn
  refine ⟨hfallen, ?_⟩
  intro p hp hal hpos hd hus
  obtain ⟨tt, hpt, hidx⟩ := hpos
  exact checkEliminations_kills now (processTileFalls now tiles).1 ps us da evs p hp hnd
    hal hus ⟨tt, hpt, { t with state := .fallen }, by rw [hidx]; exact hfallen, rfl⟩ hd

/-- Sample tile array for the C4 witness: 17 tiles, the one at index 16
(= tile (1,1)) shaking and due to fall at t=5. -/
def sampleTiles : List Tile :=
  (List.range 17).map
    (fun i => if i = 16 then ⟨16, .shaking, some 0, some 5⟩ else ⟨i, .solid, none, none⟩)

/-- Sample player for the C4 witness, standing at the center of tile (1,1),
alive, with no active dash. -/
def pW : Player := ⟨"w", "W", tileCenter 1 1, ⟨0, 0⟩, true, 0, 0, 0, false⟩

/-- C4 witness: at tick 10 the due tile 16 falls and the player standing on
it is eliminated in the same tick. -/
theorem c4_tileFallElimination_witness :
    ((processTileFalls 10 sampleTiles).1.get? 16 =
      some ⟨16, .fallen, some 0, some 5⟩) ∧
    (∃ p' ∈ (checkEliminations 10 (processTileFalls 10 sampleTiles).1 [pW]
        (fun _ => none) (fun _ => none) []).players,
      p'.id = pW.id ∧ p'.alive = false ∧
      (checkEliminations 10 (processTileFalls 10 sampleTiles).1 [pW]
        (fun _ => none) (fun _ => none) []).deathAt pW.id = some 10 ∧
      GameEvent.death pW.id ∈
        (checkEliminations 10 (processTileFalls 10 sampleTiles).1 [pW]
          (fun _ => none) (fun _ => none) []).events) := by
  have h := c4_tileFallElimination 10 sampleTiles 16 ⟨16, .shaking, some 0, some 5⟩ 5
    [pW] (fun _ => none) (fun _ => none) [] (by decide) rfl rfl (by decide) (by decide)
  refine ⟨h.1, h.2 pW (by simp) rfl ⟨(1, 1), ?_, rfl⟩ (by decide) ?_⟩
  · show posToTile (tileCenter 1 1) = some (1, 1)
    norm_num [posToTile, tileCenter, HALF_W_TILES, HALF_H_TILES, TILE_SIZE,
      MAP_WIDTH, MAP_HEIGHT]
  · intro v hv
    simp at hv

/-! ### Claim C10 — lastMoveDir invariant -/

/-- A vector of exact unit length (squared norm 1); in particular nonzero. -/
def isUnit (v : Vec2) : Prop := normSq v = 1

/-- `handleInput` either keeps `lastMoveDir` or stores the normalization of
the clamped move, and it stores only when that normalization has positive
reported length. -/
lemma handleInput_lastMoveDir (s : ℚ → ℚ) (p : Player) (input : InputState)
    (seq : Nat) (move : Vec2) (dash : Bool) :
    (handleInput s p input seq move dash).2.lastMoveDir = input.lastMoveDir ∨
    ((handleInput s p input seq move dash).2.lastMoveDir =
        normalize s ⟨clamp move.x (-1) 1, clamp move.y (-1) 1⟩ ∧
      0 < vlength s (normalize s ⟨clamp move.x (-1) 1, clamp move.y (-1) 1⟩)) := by
  simp only [handleInput]
  by_cases hseq : seq < input.lastSeq
  · rw [if_pos hseq]
    exact Or.inl rfl
  · rw [if_neg hseq]
    by_cases hg : 0 < vlength s (normalize s ⟨clamp move.x (-1) 1, clamp move.y (-1) 1⟩)
    · rw [if_pos hg]
      by_cases hdash : dash = true
      · rw [if_pos hdash]
        exact Or.inr ⟨rfl, hg⟩
      · rw [if_neg hdash]
        exact Or.inr ⟨rfl, hg⟩
    · rw [if_neg hg]
      by_cases hdash : dash = true
      · rw [if_pos hdash]
        exact Or.inl rfl
      · rw [if_neg hdash]
        exact Or.inl rfl

/-- When the reported length of a normalized vector is positive (and the
square-root oracle is exact at the points involved), the normalized vector
has exact unit squared norm. -/
lemma isUnit_normalize (s : ℚ → ℚ) (v : Vec2) (h0 : s 0 = 0)
    (hq : 1/1000000 < s (normSq v) → s (normSq v) * s (normSq v) = normSq v)
    (hpos : 0 < vlength s (normalize s v)) : isUnit (normalize s v) := by
  unfold normalize at hpos ⊢
  by_cases hm : vlength s v ≤ 1/1000000
  · rw [if_pos hm] at hpos
    have hz : vlength s (⟨0, 0⟩ : Vec2) = 0 := by
      unfold vlength normSq
      norm_num [h0]
    rw [hz] at hpos
    exact absurd hpos (by norm_num)
  · rw [if_neg hm] at hpos ⊢
    have hmm : 1/1000000 < s (normSq v) := lt_of_not_le (by unfold vlength at hm; exact hm)
    have hsq := hq hmm
    have hne : s (normSq v) ≠ 0 := ne_of_gt (lt_trans (by norm_num) hmm)
    unfold isUnit normSq
    simp only [vlength, normSq] at hsq ⊢
    field_simp
    rw [hsq]
    have hqne : v.x * v.x + v.y * v.y ≠ 0 := by
      rw [← hsq]
      exact mul_ne_zero hne hne
    rw [div_self hqne]

/-- C10: the stored last move direction is always a nonzero unit vector (in
exact arithmetic): it is `(0,1)` on join and at round start, and `handleInput`
only overwrites it with the normalization of a clamped move whose reported
length is positive — which, when the square-root oracle is exact at the
points encountered, has squared norm 1.  Consequently, whenever a pending
dash request is consumed on a tick with expired cooldown, the dash impulse is
always applied (`dashUntil` and `dashCooldownUntil` set, impulse added): the
zero-direction no-dash branch is unreachable. -/
theorem c10_lastMoveDirUnit (s : ℚ → ℚ) (p : Player) (input : InputState)
    (now : Int) (seq : Nat) (move : Vec2) (dash : Bool)
    (h0 : s 0 = 0) (hs1 : s 1 = 1)
    (hq : 1/1000000 < s (normSq ⟨clamp move.x (-1) 1, clamp move.y (-1) 1⟩) →
      s (normSq ⟨clamp move.x (-1) 1, clamp move.y (-1) 1⟩) *
        s (normSq ⟨clamp move.x (-1) 1, clamp move.y (-1) 1⟩) =
        normSq ⟨clamp move.x (-1) 1, clamp move.y (-1) 1⟩)
    (hinv : isUnit input.lastMoveDir)
    (hreq : input.dashRequest = true) (hcd : p.dashCooldownUntil ≤ now) :
    isUnit addPlayerInput.lastMoveDir ∧
    isUnit (startRoundInputReset input).lastMoveDir ∧
    isUnit ((handleInput s p input seq move dash).2.lastMoveDir) ∧
    ((handleDashStart s now p input).1.dashUntil = now + DASH_DURATION_MS ∧
     (handleDashStart s now p input).1.dashCooldownUntil = now + DASH_COOLDOWN_MS ∧
     (handleDashStart s now p input).1.vel =
       vadd p.vel (vmul input.lastMoveDir DASH_IMPULSE)) := by
  have hlen1 : vlength s input.lastMoveDir = 1 := by
    unfold vlength
    rw [show normSq input.lastMoveDir = 1 from hinv, hs1]
  have hdir : normalize s input.lastMoveDir = input.lastMoveDir := by
    unfold normalize
    rw [hlen1, if_neg (by norm_num)]
    show (⟨input.lastMoveDir.x / 1, input.lastMoveDir.y / 1⟩ : Vec2) = input.lastMoveDir
    rw [div_one, div_one]
  refine ⟨by norm_num [addPlayerInput, isUnit, normSq],
    by norm_num [startRoundInputReset, isUnit, normSq], ?_, ?_⟩
  · rcases handleInput_lastMoveDir s p input seq move dash with h | ⟨h, hgpos⟩
    · rw [h]
      exact hinv
    · rw [h]
      exact isUnit_normalize s _ h0 hq hgpos
  · have hguard : input.dashRequest = true ∧ p.dashCooldownUntil ≤ now := ⟨hreq, hcd⟩
    have hdlen : 0 < vlength s (normalize s input.lastMoveDir) := by
      rw [hdir, hlen1]
      norm_num
    simp only [handleDashStart]
    rw [if_pos hguard, if_pos hdlen, hdir]
    exact ⟨rfl, rfl, rfl⟩

/-- C10 witness: the invariant and the always-dash consequence at the
identity square-root oracle (exact at the points 0, 1 used), with move input
(3/5, 4/5) of unit norm. -/
theorem c10_lastMoveDirUnit_witness :
    isUnit addPlayerInput.lastMoveDir ∧
    isUnit (startRoundInputReset ⟨⟨0, 0⟩, true, 0, ⟨0, 1⟩⟩).lastMoveDir ∧
    isUnit ((handleInput (fun x => x) pA ⟨⟨0, 0⟩, true, 0, ⟨0, 1⟩⟩ 1
      ⟨3/5, 4/5⟩ false).2.lastMoveDir) ∧
    ((handleDashStart (fun x => x) 5 pA ⟨⟨0, 0⟩, true, 0, ⟨0, 1⟩⟩).1.dashUntil =
        5 + DASH_DURATION_MS ∧
     (handleDashStart (fun x => x) 5 pA ⟨⟨0, 0⟩, true, 0, ⟨0, 1⟩⟩).1.dashCooldownUntil =
        5 + DASH_COOLDOWN_MS ∧
     (handleDashStart (fun x => x) 5 pA ⟨⟨0, 0⟩, true, 0, ⟨0, 1⟩⟩).1.vel =
        vadd pA.vel (vmul (⟨0, 1⟩ : Vec2) DASH_IMPULSE)) :=
  c10_lastMoveDirUnit (fun x => x) pA ⟨⟨0, 0⟩, true, 0, ⟨0, 1⟩⟩ 5 1 ⟨3/5, 4/5⟩ false
    rfl rfl (by norm_num [clamp, normSq]) (by norm_num [isUnit, normSq]) rfl
    (by norm_num [pA])

end DontFall
